import Mathlib

/-!
Verification of the markdown block parser, translation adapter and row
aligner of the `fr-es-2-column-layout` repository
(`src/bilingual_pdf.py`, `src/fr_es_pdf.py`).

Strings are embedded as `List Char`.  Python text primitives used by the
program (`str.splitlines`, `str.strip`, `str.join`, `str.upper`, and the
heading regular expression `^(#{1,2})\s+(.*)`) are modelled below; the
program functions keep their Python names.
-/

namespace FrEs2Col

/-- Block kinds: the three values the `type` field of a block dict can take
in `parse_markdown` (the strings `"h1"`, `"h2"`, `"p"`). -/
inductive BType
  | h1
  | h2
  | p
deriving DecidableEq

/-- A block as built by `parse_markdown`: a dict `{"type": ..., "text": ...}`
with the text kept as a character list. -/
structure Block where
  type : BType
  text : List Char
deriving DecidableEq

/-- Python whitespace (`str.strip` with no argument, and `\s` of the `re`
module on `str` patterns): ASCII whitespace, the C1 separator controls,
NEL, and the Unicode space characters. -/
def isPySpace (c : Char) : Bool :=
  c == ' ' || c == '\t' || c == '\n' || c == '\x0b' || c == '\x0c' || c == '\r' ||
  c == '\x1c' || c == '\x1d' || c == '\x1e' || c == '\x1f' ||
  c == '\x85' || c == '\xa0' || c == ' ' ||
  (' ' ≤ c && c ≤ ' ') ||
  c == ' ' || c == ' ' || c == ' ' || c == ' ' || c == '　'

/-- The characters at which Python `str.splitlines` breaks lines
(besides the two-character sequence CR LF, handled separately). -/
def isLineBoundary (c : Char) : Bool :=
  c == '\n' || c == '\r' || c == '\x0b' || c == '\x0c' ||
  c == '\x1c' || c == '\x1d' || c == '\x1e' ||
  c == '\x85' || c == ' ' || c == ' '

/-- First phase of `str.splitlines`: coalesce every CR LF pair into a single
LF, so that the second phase can split at single boundary characters. -/
def normCRLF : List Char → List Char
  | [] => []
  | [c] => [c]
  | c :: d :: rest =>
    if c = '\r' ∧ d = '\n' then '\n' :: normCRLF rest
    else c :: normCRLF (d :: rest)

/-- Prepend a character to the first line of a line list (helper for
`splitBoundaries`). -/
def consLine (c : Char) : List (List Char) → List (List Char)
  | [] => [[c]]
  | l :: ls => (c :: l) :: ls

/-- Second phase of `str.splitlines`: split at single boundary characters;
a trailing boundary does not open a final empty line. -/
def splitBoundaries : List Char → List (List Char)
  | [] => []
  | c :: rest =>
    if isLineBoundary c then [] :: splitBoundaries rest
    else consLine c (splitBoundaries rest)

/-- Python `str.splitlines` (used by `parse_markdown` to iterate over
lines): line-boundary characters and CR LF end a line and are not kept;
the terminator after the last line is optional. -/
def pySplitlines (cs : List Char) : List (List Char) :=
  splitBoundaries (normCRLF cs)

/-- Python `str.strip()` with no argument: remove leading and trailing
whitespace. -/
def pyStrip (cs : List Char) : List Char :=
  ((cs.dropWhile isPySpace).reverse.dropWhile isPySpace).reverse

/-- Python `sep.join(parts)`. -/
def pyJoin (sep : List Char) : List (List Char) → List Char
  | [] => []
  | [x] => x
  | x :: y :: xs => x ++ sep ++ pyJoin sep (y :: xs)

/-- Python `str.upper()` on the language codes this program handles
(character-wise upper-casing). -/
def pyUpper (cs : List Char) : List Char := cs.map Char.toUpper

/-- Tail of the heading regular expression `^(#{1,2})\s+(.*)` after the
hashes have been consumed: `\s+` requires one whitespace character and then
greedily eats the whole run; `(.*)` takes the remainder up to a LF.
`n` is `len(m.group(1))`; the second component is `m.group(2)`. -/
def reHeadingRest (n : Nat) (rest : List Char) : Option (Nat × List Char) :=
  match rest with
  | [] => none
  | c :: _ =>
    if isPySpace c then
      some (n, (rest.dropWhile isPySpace).takeWhile (fun d => d ≠ '\n'))
    else none

/-- `re.match(r'^(#{1,2})\s+(.*)', s)`, returning `(len(m.group(1)),
m.group(2))` on success.  `#{1,2}` prefers two hashes; backtracking to one
hash can never help, because after `##` the one-hash alternative would need
the second `#` to be whitespace. -/
def reHeadingMatch : List Char → Option (Nat × List Char)
  | [] => none
  | c :: rest =>
    if c = '#' then
      match rest with
      | [] => none
      | d :: rest2 => if d = '#' then reHeadingRest 2 rest2 else reHeadingRest 1 rest
    else none

/-- The inner `flush_paragraph` of `parse_markdown`: on a non-empty
accumulator emit one paragraph block whose text is the space-join of the
accumulated lines; on an empty accumulator emit nothing. -/
def flush_paragraph (acc : List (List Char)) : List Block :=
  if acc = [] then [] else [⟨BType.p, pyJoin [' '] acc⟩]

/-- The line loop of `parse_markdown`: `acc` is `current_paragraph_lines`.
A blank stripped line flushes; a line matching the heading regex flushes and
emits a heading (`f"h{level}"`) whose text is the stripped second group; any
other line is appended (stripped) to the accumulator; a final flush follows
the last line. -/
def parseMdLoop : List (List Char) → List (List Char) → List Block
  | acc, [] => flush_paragraph acc
  | acc, line :: rest =>
    let stripped := pyStrip line
    if stripped = [] then flush_paragraph acc ++ parseMdLoop [] rest
    else
      match reHeadingMatch stripped with
      | some nb =>
        flush_paragraph acc ++
          ⟨if nb.1 = 1 then BType.h1 else BType.h2, pyStrip nb.2⟩ :: parseMdLoop [] rest
      | none => parseMdLoop (acc ++ [stripped]) rest

/-- `parse_markdown` run on an already-split list of lines. -/
def parseLines (ls : List (List Char)) : List Block := parseMdLoop [] ls

/-- `parse_markdown` on a character list. -/
def parseChars (cs : List Char) : List Block := parseLines (pySplitlines cs)

/-- `parse_markdown(text)` of `bilingual_pdf.py` / `fr_es_pdf.py`. -/
def parse_markdown (s : String) : List Block := parseChars s.data

/-- The line `blocks_to_markdown` emits for one block: `# text` for h1,
`## text` for h2, the bare text for a paragraph. -/
def blockLine (b : Block) : List Char :=
  match b.type with
  | BType.h1 => '#' :: ' ' :: b.text
  | BType.h2 => '#' :: '#' :: ' ' :: b.text
  | BType.p => b.text

/-- The `lines` list built by the loop of `blocks_to_markdown`: each block
contributes its line followed by an empty string. -/
def serPieces : List Block → List (List Char)
  | [] => []
  | b :: bs => blockLine b :: [] :: serPieces bs

/-- `blocks_to_markdown(blocks)` of `bilingual_pdf.py`:
`"\n".join(lines)`. -/
def blocks_to_markdown (bs : List Block) : List Char :=
  pyJoin ['\n'] (serPieces bs)

/-- `translate_stub(blocks, target_lang)` of `fr_es_pdf.py`: each block is
rebuilt with the same `type` and text `f"[{label}] {text}"` where `label`
is the upper-cased target language code. -/
def translate_stub (bs : List Block) (target_lang : List Char) : List Block :=
  bs.map (fun b => ⟨b.type, ('[' :: pyUpper target_lang) ++ (']' :: ' ' :: b.text)⟩)

/-- The row-building loop of `generate_html` (both variants): one row per
index below `max(len(left), len(right))`; the slot for a side is its block
at that index when the index is in range (rendered there via `_html_cell`)
and absent (rendered as the empty string) otherwise. -/
def alignRows (left right : List Block) : List (Option Block × Option Block) :=
  (List.range (max left.length right.length)).map (fun i => (left[i]?, right[i]?))

/-- The warning condition of `generate_html`: a diagnostic is printed to
stderr exactly when the two block lists have different lengths. -/
def block_count_warning (left right : List Block) : Bool :=
  left.length != right.length

/-- `generate_html` abstracted to its observable effects on blocks: the
mismatch warning and the aligned rows interpolated into the HTML table. -/
def generate_html (left right : List Block) :
    Bool × List (Option Block × Option Block) :=
  (block_count_warning left right, alignRows left right)

/-- The external-translation path of `main` in `bilingual_pdf.py`
(lines 401-411): `_validate_lang_codes` checks both codes against the
collaborator's supported set and exits with an error before
`translate_with_google` issues one `translator.translate` call per block.
The collaborator is abstracted as its supported-code list `supported` and
its translation function `tr`; the second component of the result counts
the translate calls issued. -/
def run_external_translation (supported : List (List Char))
    (tr : List Char → List Char) (source target : List Char)
    (bs : List Block) : Option (List Block) × Nat :=
  if source ∈ supported ∧ target ∈ supported then
    (some (bs.map (fun b => ⟨b.type, tr b.text⟩)), bs.length)
  else (none, 0)

/-! ## Helper lemmas -/

theorem getElem?_isSome_iff {α : Type} (l : List α) (i : Nat) :
    (l[i]?).isSome ↔ i < l.length := by
  constructor
  · intro h
    by_contra hc
    rw [List.getElem?_eq_none (Nat.le_of_not_lt hc)] at h
    simp at h
  · intro h
    rw [List.getElem?_eq_getElem h]
    simp

theorem alignRows_length (l r : List Block) :
    (alignRows l r).length = max l.length r.length := by
  simp [alignRows]

theorem alignRows_getElem? (l r : List Block) (i : Nat)
    (h : i < max l.length r.length) :
    (alignRows l r)[i]? = some (l[i]?, r[i]?) := by
  simp [alignRows, List.getElem?_map, List.getElem?_range, h]

theorem mem_of_getLast?_eq {α : Type} (l : List α) (a : α)
    (h : l.getLast? = some a) : a ∈ l := by
  cases l with
  | nil => simp at h
  | cons x t =>
    rw [List.getLast?_eq_getLast (x :: t) (by simp), Option.some.injEq] at h
    exact h ▸ List.getLast_mem (by simp)

theorem head?_append_left {α : Type} (l m : List α) (h : l ≠ []) :
    (l ++ m).head? = l.head? := by
  cases l with
  | nil => exact absurd rfl h
  | cons a t => rfl

theorem dropWhile_head?_not (p : Char → Bool) (l : List Char) (c : Char)
    (h : (l.dropWhile p).head? = some c) : p c = false := by
  induction l with
  | nil => simp at h
  | cons a t ih =>
    rw [List.dropWhile_cons] at h
    by_cases ha : p a
    · rw [if_pos ha] at h
      exact ih h
    · rw [if_neg ha] at h
      simp only [List.head?_cons, Option.some.injEq] at h
      rw [h] at ha
      exact Bool.eq_false_iff.mpr ha

theorem dropWhile_getLast?_of_ne_nil (p : Char → Bool) (l : List Char)
    (h : l.dropWhile p ≠ []) : (l.dropWhile p).getLast? = l.getLast? := by
  obtain ⟨t, ht⟩ := List.dropWhile_suffix (l := l) p
  conv_rhs => rw [← ht]
  rw [List.getLast?_append_of_ne_nil t h]

theorem dropWhile_eq_self_of_head (p : Char → Bool) (l : List Char)
    (h : ∀ c, l.head? = some c → p c = false) : l.dropWhile p = l := by
  cases l with
  | nil => rfl
  | cons a t =>
    rw [List.dropWhile_cons, h a rfl]
    simp

/-- No line-boundary character occurs in the character list. -/
def noBoundary (cs : List Char) : Prop := ∀ c ∈ cs, isLineBoundary c = false

/-- The character list neither starts nor ends with Python whitespace. -/
def strippedEnds (cs : List Char) : Prop :=
  (∀ c, cs.head? = some c → isPySpace c = false) ∧
  (∀ c, cs.getLast? = some c → isPySpace c = false)

/-- Invariant of every `text` field `parse_markdown` produces: non-empty,
stripped at both ends, free of line-boundary characters. -/
def goodText (cs : List Char) : Prop := cs ≠ [] ∧ strippedEnds cs ∧ noBoundary cs

theorem pyStrip_nil : pyStrip [] = [] := rfl

theorem pyStrip_subset (cs : List Char) (c : Char) (hc : c ∈ pyStrip cs) :
    c ∈ cs := by
  unfold pyStrip at hc
  rw [List.mem_reverse] at hc
  have h1 := (List.dropWhile_sublist isPySpace).subset hc
  rw [List.mem_reverse] at h1
  exact (List.dropWhile_sublist isPySpace).subset h1

theorem pyStrip_head (cs : List Char) (c : Char)
    (h : (pyStrip cs).head? = some c) : isPySpace c = false := by
  unfold pyStrip at h
  rw [List.head?_reverse] at h
  have hne : (cs.dropWhile isPySpace).reverse.dropWhile isPySpace ≠ [] := by
    intro hn
    rw [hn] at h
    simp at h
  rw [dropWhile_getLast?_of_ne_nil _ _ hne, List.getLast?_reverse] at h
  exact dropWhile_head?_not _ _ _ h

theorem pyStrip_last (cs : List Char) (c : Char)
    (h : (pyStrip cs).getLast? = some c) : isPySpace c = false := by
  unfold pyStrip at h
  rw [List.getLast?_reverse] at h
  exact dropWhile_head?_not _ _ _ h

theorem pyStrip_strippedEnds (cs : List Char) : strippedEnds (pyStrip cs) :=
  ⟨pyStrip_head cs, pyStrip_last cs⟩

theorem pyStrip_eq_self (cs : List Char) (h : strippedEnds cs) :
    pyStrip cs = cs := by
  unfold pyStrip
  rw [dropWhile_eq_self_of_head _ _ h.1]
  rw [dropWhile_eq_self_of_head _ _ (by
    intro c hc
    rw [List.head?_reverse] at hc
    exact h.2 c hc)]
  exact List.reverse_reverse cs

theorem goodText_pyStrip (line : List Char) (hnb : noBoundary line)
    (hne : pyStrip line ≠ []) : goodText (pyStrip line) :=
  ⟨hne, pyStrip_strippedEnds line, fun c hc => hnb c (pyStrip_subset line c hc)⟩

theorem pyJoin_cons2 (sep x y : List Char) (xs : List (List Char)) :
    pyJoin sep (x :: y :: xs) = x ++ (sep ++ pyJoin sep (y :: xs)) := by
  rw [show pyJoin sep (x :: y :: xs) = x ++ sep ++ pyJoin sep (y :: xs) from rfl,
    List.append_assoc]

theorem pyJoin_space_good (acc : List (List Char)) (hne : acc ≠ [])
    (h : ∀ x ∈ acc, goodText x) : goodText (pyJoin [' '] acc) := by
  induction acc with
  | nil => exact absurd rfl hne
  | cons x xs ih =>
    cases xs with
    | nil => exact h x (by simp)
    | cons y ys =>
      have hx := h x (by simp)
      have hJ := ih (by simp) (fun z hz => h z (by simp [hz]))
      rw [pyJoin_cons2]
      refine ⟨by simp [hx.1], ⟨?_, ?_⟩, ?_⟩
      · intro c hc
        rw [head?_append_left _ _ hx.1] at hc
        exact hx.2.1.1 c hc
      · intro c hc
        rw [List.getLast?_append_of_ne_nil x (by simp)] at hc
        rw [List.getLast?_append_of_ne_nil [' '] hJ.1] at hc
        exact hJ.2.1.2 c hc
      · intro c hc
        rw [List.mem_append] at hc
        rcases hc with hc | hc
        · exact hx.2.2 c hc
        · rw [List.mem_append] at hc
          rcases hc with hc | hc
          · rw [List.mem_singleton] at hc
            rw [hc]
            decide
          · exact hJ.2.2 c hc

theorem reHeadingRest_eq (n : Nat) (rest : List Char)
    (hlast : ∀ c, rest.getLast? = some c → isPySpace c = false)
    (hnb : noBoundary rest)
    (res : Nat × List Char) (h : reHeadingRest n rest = some res) :
    res.1 = n ∧ res.2 = rest.dropWhile isPySpace ∧ goodText res.2 := by
  cases rest with
  | nil => simp [reHeadingRest] at h
  | cons c t =>
    rw [show reHeadingRest n (c :: t) = if isPySpace c then
        some (n, ((c :: t).dropWhile isPySpace).takeWhile (fun d => d ≠ '\n'))
      else none from rfl] at h
    by_cases hc : isPySpace c
    · rw [if_pos hc] at h
      obtain ⟨lx, hlx⟩ : ∃ a, (c :: t).getLast? = some a :=
        ⟨(c :: t).getLast (by simp), List.getLast?_eq_getLast _ (by simp)⟩
      have hlxs : isPySpace lx = false := hlast lx hlx
      have hlxm : lx ∈ c :: t := mem_of_getLast?_eq _ _ hlx
      have hDne : (c :: t).dropWhile isPySpace ≠ [] := by
        intro hD
        rw [List.dropWhile_eq_nil_iff] at hD
        rw [hD lx hlxm] at hlxs
        exact absurd hlxs (by simp)
      have hTW : ((c :: t).dropWhile isPySpace).takeWhile (fun d => d ≠ '\n') =
          (c :: t).dropWhile isPySpace := by
        rw [List.takeWhile_eq_self_iff]
        intro x hx
        have hxm : x ∈ c :: t := (List.dropWhile_sublist isPySpace).subset hx
        have hxb := hnb x hxm
        simp only [decide_eq_true_eq]
        intro hxe
        rw [hxe] at hxb
        exact absurd hxb (by decide)
      rw [hTW] at h
      obtain rfl : (n, (c :: t).dropWhile isPySpace) = res := Option.some.inj h
      refine ⟨rfl, rfl, hDne, ⟨?_, ?_⟩, ?_⟩
      · intro c0 hc0
        exact dropWhile_head?_not _ _ _ hc0
      · intro c0 hc0
        rw [dropWhile_getLast?_of_ne_nil _ _ hDne] at hc0
        exact hlast c0 hc0
      · intro c0 hc0
        exact hnb c0 ((List.dropWhile_sublist isPySpace).subset hc0)
    · rw [if_neg hc] at h
      exact absurd h (by simp)

theorem reHeadingMatch_good (s : List Char) (hs : goodText s)
    (res : Nat × List Char) (h : reHeadingMatch s = some res) :
    (res.1 = 1 ∨ res.1 = 2) ∧ goodText res.2 ∧ pyStrip res.2 = res.2 := by
  cases s with
  | nil => simp [reHeadingMatch] at h
  | cons c rest =>
    by_cases hc : c = '#'
    · subst hc
      cases rest with
      | nil => simp [reHeadingMatch, reHeadingRest] at h
      | cons d rest2 =>
        by_cases hd : d = '#'
        · subst hd
          have h2 : reHeadingRest 2 rest2 = some res := by
            rw [show reHeadingMatch ('#' :: '#' :: rest2) =
              reHeadingRest 2 rest2 from by simp [reHeadingMatch]] at h
            exact h
          cases rest2 with
          | nil => simp [reHeadingRest] at h2
          | cons e t =>
            have hr := reHeadingRest_eq 2 (e :: t)
              (by
                intro x hx
                apply hs.2.1.2
                rw [show ('#' :: '#' :: e :: t : List Char) =
                  ['#', '#'] ++ (e :: t) from rfl]
                rw [List.getLast?_append_of_ne_nil ['#', '#'] (by simp)]
                exact hx)
              (by
                intro x hx
                exact hs.2.2 x (by simp [hx]))
              res h2
            refine ⟨Or.inr hr.1, hr.2.2, pyStrip_eq_self _ hr.2.2.2.1⟩
        · have h1 : reHeadingRest 1 (d :: rest2) = some res := by
            rw [show reHeadingMatch ('#' :: d :: rest2) =
              (if d = '#' then reHeadingRest 2 rest2
               else reHeadingRest 1 (d :: rest2)) from by simp [reHeadingMatch]] at h
            rw [if_neg hd] at h
            exact h
          have hr := reHeadingRest_eq 1 (d :: rest2)
            (by
              intro x hx
              apply hs.2.1.2
              rw [show ('#' :: d :: rest2 : List Char) = ['#'] ++ (d :: rest2) from rfl]
              rw [List.getLast?_append_of_ne_nil ['#'] (by simp)]
              exact hx)
            (by
              intro x hx
              exact hs.2.2 x (by simp [hx]))
            res h1
          refine ⟨Or.inl hr.1, hr.2.2, pyStrip_eq_self _ hr.2.2.2.1⟩
    · simp [reHeadingMatch, hc] at h

theorem parseMdLoop_cons (acc : List (List Char)) (line : List Char)
    (rest : List (List Char)) :
    parseMdLoop acc (line :: rest) =
      if pyStrip line = [] then flush_paragraph acc ++ parseMdLoop [] rest
      else
        match reHeadingMatch (pyStrip line) with
        | some nb =>
          flush_paragraph acc ++
            ⟨if nb.1 = 1 then BType.h1 else BType.h2, pyStrip nb.2⟩ ::
              parseMdLoop [] rest
        | none => parseMdLoop (acc ++ [pyStrip line]) rest := rfl

theorem mem_flush_paragraph (acc : List (List Char)) (b : Block)
    (hb : b ∈ flush_paragraph acc) :
    acc ≠ [] ∧ b = ⟨BType.p, pyJoin [' '] acc⟩ := by
  unfold flush_paragraph at hb
  by_cases hacc : acc = []
  · rw [if_pos hacc] at hb
    simp at hb
  · rw [if_neg hacc] at hb
    rw [List.mem_singleton] at hb
    exact ⟨hacc, hb⟩

theorem parseMdLoop_goodText (ls : List (List Char)) :
    ∀ (acc : List (List Char)), (∀ l ∈ ls, noBoundary l) →
    (∀ x ∈ acc, goodText x) →
    ∀ b ∈ parseMdLoop acc ls, goodText b.text := by
  induction ls with
  | nil =>
    intro acc hls hacc b hb
    obtain ⟨hne, rfl⟩ := mem_flush_paragraph acc b hb
    exact pyJoin_space_good acc hne hacc
  | cons line rest ih =>
    intro acc hls hacc b hb
    rw [parseMdLoop_cons] at hb
    have hlnb : noBoundary line := hls line (by simp)
    have hrest : ∀ l ∈ rest, noBoundary l := fun l hl => hls l (by simp [hl])
    by_cases hstr : pyStrip line = []
    · rw [if_pos hstr] at hb
      rw [List.mem_append] at hb
      rcases hb with hb | hb
      · obtain ⟨hne, rfl⟩ := mem_flush_paragraph acc b hb
        exact pyJoin_space_good acc hne hacc
      · exact ih [] hrest (by simp) b hb
    · rw [if_neg hstr] at hb
      have hgl : goodText (pyStrip line) := goodText_pyStrip line hlnb hstr
      cases hm : reHeadingMatch (pyStrip line) with
      | some nb =>
        rw [hm] at hb
        have hb2 : b ∈ flush_paragraph acc ++
            (⟨if nb.1 = 1 then BType.h1 else BType.h2, pyStrip nb.2⟩ : Block) ::
              parseMdLoop [] rest := hb
        rw [List.mem_append] at hb2
        rcases hb2 with hb2 | hb2
        · obtain ⟨hne, rfl⟩ := mem_flush_paragraph acc b hb2
          exact pyJoin_space_good acc hne hacc
        · rw [List.mem_cons] at hb2
          rcases hb2 with rfl | hb2
          · have hg := reHeadingMatch_good (pyStrip line) hgl nb hm
            show goodText (pyStrip nb.2)
            rw [hg.2.2]
            exact hg.2.1
          · exact ih [] hrest (by simp) b hb2
      | none =>
        rw [hm] at hb
        have hb2 : b ∈ parseMdLoop (acc ++ [pyStrip line]) rest := hb
        refine ih (acc ++ [pyStrip line]) hrest ?_ b hb2
        intro x hx
        rw [List.mem_append] at hx
        rcases hx with hx | hx
        · exact hacc x hx
        · rw [List.mem_singleton] at hx
          rw [hx]
          exact hgl

theorem splitBoundaries_cons (c : Char) (rest : List Char) :
    splitBoundaries (c :: rest) =
      if isLineBoundary c then [] :: splitBoundaries rest
      else consLine c (splitBoundaries rest) := rfl

theorem splitBoundaries_noBoundary (cs : List Char) :
    ∀ l ∈ splitBoundaries cs, noBoundary l := by
  induction cs with
  | nil => simp [splitBoundaries]
  | cons c rest ih =>
    intro l hl
    rw [splitBoundaries_cons] at hl
    by_cases hc : isLineBoundary c
    · rw [if_pos hc] at hl
      rw [List.mem_cons] at hl
      rcases hl with rfl | hl
      · intro x hx
        simp at hx
      · exact ih l hl
    · rw [if_neg hc] at hl
      cases hS : splitBoundaries rest with
      | nil =>
        rw [hS] at hl
        simp only [consLine, List.mem_singleton] at hl
        subst hl
        intro x hx
        rw [List.mem_singleton] at hx
        rw [hx]
        exact Bool.eq_false_iff.mpr hc
      | cons l0 ls =>
        rw [hS] at hl
        simp only [consLine, List.mem_cons] at hl
        rcases hl with rfl | hl
        · intro x hx
          rw [List.mem_cons] at hx
          rcases hx with rfl | hx
          · exact Bool.eq_false_iff.mpr hc
          · exact ih l0 (by rw [hS]; simp) x hx
        · exact ih l (by rw [hS]; simp [hl])

theorem pySplitlines_noBoundary (cs : List Char) :
    ∀ l ∈ pySplitlines cs, noBoundary l :=
  splitBoundaries_noBoundary (normCRLF cs)

theorem parse_markdown_goodText (s : String) (b : Block)
    (hb : b ∈ parse_markdown s) : goodText b.text :=
  parseMdLoop_goodText (pySplitlines s.data) [] (pySplitlines_noBoundary s.data)
    (by simp) b hb

/-! ## Claim theorems -/

/-- C1: the row alignment produces exactly `max(m, n)` row pairs in
positional order; for `i < min(m, n)` both slots hold `left[i]` and
`right[i]`; for `min(m, n) ≤ i < max(m, n)` exactly one slot is present,
taken from the longer sequence; no block is reordered, dropped or
truncated. -/
theorem align_produces_padded_rows (l r : List Block) (i : Nat) :
    (alignRows l r).length = max l.length r.length ∧
    (i < max l.length r.length → (alignRows l r)[i]? = some (l[i]?, r[i]?)) ∧
    (i < min l.length r.length →
      (∃ a, l[i]? = some a) ∧ (∃ b, r[i]? = some b)) ∧
    (min l.length r.length ≤ i → i < max l.length r.length →
      (if l.length ≤ r.length then l[i]? = none ∧ (r[i]?).isSome = true
       else (l[i]?).isSome = true ∧ r[i]? = none)) := by
  refine ⟨alignRows_length l r, fun h => alignRows_getElem? l r i h, ?_, ?_⟩
  · intro h
    have h1 : i < l.length := lt_of_lt_of_le h (min_le_left _ _)
    have h2 : i < r.length := lt_of_lt_of_le h (min_le_right _ _)
    exact ⟨⟨l[i], List.getElem?_eq_getElem h1⟩, ⟨r[i], List.getElem?_eq_getElem h2⟩⟩
  · intro hmin hmax
    by_cases hle : l.length ≤ r.length
    · rw [if_pos hle]
      have hl : l.length ≤ i := le_trans (le_of_eq (min_eq_left hle).symm) hmin
      have hr : i < r.length := lt_of_lt_of_le hmax (le_of_eq (max_eq_right hle))
      exact ⟨List.getElem?_eq_none hl, (getElem?_isSome_iff r i).mpr hr⟩
    · rw [if_neg hle]
      have hlt : r.length < l.length := Nat.lt_of_not_le hle
      have hr : r.length ≤ i := le_trans (le_of_eq (min_eq_right (le_of_lt hlt)).symm) hmin
      have hl : i < l.length := lt_of_lt_of_le hmax (le_of_eq (max_eq_left (le_of_lt hlt)))
      exact ⟨(getElem?_isSome_iff l i).mpr hl, List.getElem?_eq_none hr⟩

/-- C1 witness: `align([a,b,c], [x,y])` has three rows and its third row is
`(c, absent)`. -/
theorem align_produces_padded_rows_app :
    (alignRows [⟨BType.p, ['a']⟩, ⟨BType.p, ['b']⟩, ⟨BType.p, ['c']⟩]
        [⟨BType.p, ['x']⟩, ⟨BType.p, ['y']⟩]).length = 3 ∧
    (alignRows [⟨BType.p, ['a']⟩, ⟨BType.p, ['b']⟩, ⟨BType.p, ['c']⟩]
        [⟨BType.p, ['x']⟩, ⟨BType.p, ['y']⟩])[2]? =
      some (some ⟨BType.p, ['c']⟩, none) := by
  have h := align_produces_padded_rows
      [⟨BType.p, ['a']⟩, ⟨BType.p, ['b']⟩, ⟨BType.p, ['c']⟩]
      [⟨BType.p, ['x']⟩, ⟨BType.p, ['y']⟩] 2
  refine ⟨h.1.trans (by decide), ?_⟩
  have h2 := h.2.1 (by decide)
  exact h2.trans (by decide)

/-- C2: the scenario input parses to exactly
`[Heading1 "Title", Paragraph "Hello world. Still here.", Heading2 "Sub",
Paragraph "More text."]`. -/
theorem parse_markdown_scenario :
    parse_markdown "# Title\n\nHello world.\nStill here.\n\n## Sub\n\nMore text." =
      [⟨BType.h1, "Title".data⟩, ⟨BType.p, "Hello world. Still here.".data⟩,
       ⟨BType.h2, "Sub".data⟩, ⟨BType.p, "More text.".data⟩] := by
  decide

/-- C3 counterexample: for the input `"#\nx"` the first parse yields the
paragraph `"# x"`, but serializing and re-parsing yields the heading
`Heading1 "x"`, so parse after one serialize/parse cycle is not the
identity. -/
theorem roundtrip_fails_on_hash_line :
    parse_markdown "#\nx" = [⟨BType.p, "# x".data⟩] ∧
    parseChars (blocks_to_markdown (parse_markdown "#\nx")) = [⟨BType.h1, "x".data⟩] ∧
    parseChars (blocks_to_markdown (parse_markdown "#\nx")) ≠ parse_markdown "#\nx" := by
  decide

/-- C4: stub translation preserves length, preserves each block's kind, and
replaces each text by `"[" + upper(target) + "] " + text`. -/
theorem translate_stub_preserves_structure (bs : List Block) (t : List Char) :
    (translate_stub bs t).length = bs.length ∧
    ∀ (i : Nat) (b : Block), bs[i]? = some b →
      (translate_stub bs t)[i]? =
        some ⟨b.type, ('[' :: pyUpper t) ++ (']' :: ' ' :: b.text)⟩ := by
  constructor
  · simp [translate_stub]
  · intro i b hb
    simp [translate_stub, List.getElem?_map, hb]

/-- C4 witness: stubbing one h1 block for target `es` yields one h1 block
with text `"[ES] t"`. -/
theorem translate_stub_preserves_structure_app :
    (translate_stub [⟨BType.h1, ['t']⟩] ['e', 's']).length = 1 ∧
    (translate_stub [⟨BType.h1, ['t']⟩] ['e', 's'])[0]? =
      some ⟨BType.h1, ['[', 'E', 'S', ']', ' ', 't']⟩ := by
  have h := translate_stub_preserves_structure [⟨BType.h1, ['t']⟩] ['e', 's']
  refine ⟨h.1.trans (by decide), ?_⟩
  have h2 := h.2 0 ⟨BType.h1, ['t']⟩ (by decide)
  exact h2.trans (by decide)

/-- C5: with an unsupported source or target code the external-translation
run fails during validation, and zero translate calls reach the
collaborator. -/
theorem unsupported_language_zero_calls (supported : List (List Char))
    (tr : List Char → List Char) (source target : List Char) (bs : List Block)
    (h : source ∉ supported ∨ target ∉ supported) :
    run_external_translation supported tr source target bs = (none, 0) := by
  unfold run_external_translation
  rw [if_neg]
  rintro ⟨hs, ht⟩
  rcases h with h | h
  · exact h hs
  · exact h ht

/-- C5 witness: target code `xx` against supported set `{fr, es}` fails
with zero calls. -/
theorem unsupported_language_zero_calls_app :
    run_external_translation ["fr".data, "es".data] id "fr".data "xx".data
      [⟨BType.p, ['t']⟩] = (none, 0) := by
  exact unsupported_language_zero_calls ["fr".data, "es".data] id "fr".data "xx".data
    [⟨BType.p, ['t']⟩] (Or.inr (by decide))

/-- C6: the aligner warns exactly when the two lengths differ, and the
mismatch is non-fatal: the full padded row output is still produced. -/
theorem mismatch_warning_nonfatal (l r : List Block) :
    ((generate_html l r).1 = true ↔ l.length ≠ r.length) ∧
    (generate_html l r).2.length = max l.length r.length ∧
    (∀ i, i < max l.length r.length →
      (generate_html l r).2[i]? = some (l[i]?, r[i]?)) := by
  refine ⟨?_, alignRows_length l r, fun i h => alignRows_getElem? l r i h⟩
  simp [generate_html, block_count_warning]

/-- C6 witness: lengths 1 and 0 warn and still produce one padded row. -/
theorem mismatch_warning_nonfatal_app :
    (generate_html [⟨BType.p, ['a']⟩] []).1 = true ∧
    (generate_html [⟨BType.p, ['a']⟩] []).2.length = 1 := by
  have h := mismatch_warning_nonfatal [⟨BType.p, ['a']⟩] []
  exact ⟨h.1.mpr (by decide), h.2.1.trans (by decide)⟩

/-- C7 counterexample: the lines of `"a\n\nb"` carry no heading marker, yet
parse returns two paragraph blocks, not one block holding all the trimmed
lines space-joined. -/
theorem paragraph_claim_fails_on_blank_line :
    (∀ l ∈ pySplitlines "a\n\nb".data, reHeadingMatch (pyStrip l) = none) ∧
    parseLines (pySplitlines "a\n\nb".data) = [⟨BType.p, ['a']⟩, ⟨BType.p, ['b']⟩] ∧
    parseLines (pySplitlines "a\n\nb".data) ≠
      [⟨BType.p, pyJoin [' '] ((pySplitlines "a\n\nb".data).map pyStrip)⟩] := by
  decide

/-- C8 counterexample: the input `"### foo"` parses to a paragraph whose
text has the literal `#` marker at position 0. -/
theorem heading_invariant_fails_on_h3 :
    parse_markdown "### foo" = [⟨BType.p, "### foo".data⟩] ∧
    ∃ b ∈ parse_markdown "### foo", b.text.head? = some '#' := by
  decide

/-- A blank-lines-only input drives `parse_markdown` through the blank
branch on every line, so nothing is ever emitted. -/
theorem parseMdLoop_all_blank (ls : List (List Char))
    (h : ∀ l ∈ ls, pyStrip l = []) : parseMdLoop [] ls = [] := by
  induction ls with
  | nil => rfl
  | cons l rest ih =>
    have hl : pyStrip l = [] := h l (by simp)
    simp [parseMdLoop, hl, flush_paragraph, ih (fun x hx => h x (by simp [hx]))]

/-- C9: an input consisting only of blank (whitespace-only) lines parses to
the empty block sequence, and a paragraph flush with an empty accumulator
emits nothing. -/
theorem blank_input_parses_empty (s : String)
    (h : ∀ l ∈ pySplitlines s.data, pyStrip l = []) :
    parse_markdown s = [] ∧ flush_paragraph [] = [] :=
  ⟨parseMdLoop_all_blank _ h, rfl⟩

/-- C9 witness: the blank-lines input `"\n␣␣\n\t\n"` parses to nothing. -/
theorem blank_input_parses_empty_app :
    parse_markdown "\n  \n\t\n" = [] := by
  have h := blank_input_parses_empty "\n  \n\t\n" (by decide)
  exact h.1

/-- With every line non-blank and heading-free, the loop only ever grows the
accumulator, and the final flush emits one paragraph holding every stripped
line. -/
theorem parseMdLoop_no_headings (ls : List (List Char)) :
    ∀ (acc : List (List Char)), (acc = [] → ls ≠ []) →
    (∀ l ∈ ls, pyStrip l ≠ [] ∧ reHeadingMatch (pyStrip l) = none) →
    parseMdLoop acc ls = [⟨BType.p, pyJoin [' '] (acc ++ ls.map pyStrip)⟩] := by
  induction ls with
  | nil =>
    intro acc hne h
    have hacc : acc ≠ [] := fun he => (hne he) rfl
    show flush_paragraph acc = _
    unfold flush_paragraph
    rw [if_neg hacc]
    simp
  | cons line rest ih =>
    intro acc hne h
    have hl := h line (by simp)
    rw [parseMdLoop_cons, if_neg hl.1, hl.2]
    show parseMdLoop (acc ++ [pyStrip line]) rest = _
    rw [ih (acc ++ [pyStrip line]) (by simp) (fun l hl2 => h l (by simp [hl2]))]
    rw [List.map_cons, List.append_assoc]
    rfl

/-- C7 (amended): for every non-empty sequence of input lines that are all
non-blank after trimming and none of which matches the heading pattern,
parse returns exactly one Paragraph block whose text is all the lines, each
trimmed, joined in input order with single spaces.  (The original claim,
quantified over lines that merely carry no heading marker, fails on blank
lines: see `paragraph_claim_fails_on_blank_line`.) -/
theorem nonblank_lines_single_paragraph (ls : List (List Char)) (hne : ls ≠ [])
    (h : ∀ l ∈ ls, pyStrip l ≠ [] ∧ reHeadingMatch (pyStrip l) = none) :
    parseLines ls = [⟨BType.p, pyJoin [' '] (ls.map pyStrip)⟩] := by
  have hh := parseMdLoop_no_headings ls [] (fun _ => hne) h
  rw [show parseLines ls = parseMdLoop [] ls from rfl, hh]
  rfl

/-- C7 witness: the lines `" a "` and `"b"` parse to the single paragraph
`"a b"`. -/
theorem nonblank_lines_single_paragraph_app :
    parseLines [" a ".data, "b".data] = [⟨BType.p, "a b".data⟩] := by
  have h := nonblank_lines_single_paragraph [" a ".data, "b".data]
    (by decide) (by decide)
  exact h.trans (by decide)

/-- C8 (amended): every block returned by parse has text free of
line-boundary characters, so it never spans a blank line.  The
marker-at-position-0 half of the original invariant is false, because lines
opening with three or more `#` (or `#` without following whitespace) become
paragraph text verbatim: see `heading_invariant_fails_on_h3`. -/
theorem parse_text_never_spans_blank_line (s : String) (b : Block)
    (hb : b ∈ parse_markdown s) : ∀ c ∈ b.text, isLineBoundary c = false :=
  (parse_markdown_goodText s b hb).2.2

/-- C8 witness: the sole character of the block parsed from `"a"` is not a
line boundary. -/
theorem parse_text_never_spans_blank_line_app : isLineBoundary 'a' = false :=
  parse_text_never_spans_blank_line "a" ⟨BType.p, ['a']⟩ (by decide) 'a' (by decide)

/-- C10: every block returned by parse has non-empty text; in particular
heading titles are non-empty, since the heading pattern demands whitespace
after the marker on a stripped line, leaving a non-empty stripped
remainder. -/
theorem parse_blocks_nonempty_text (s : String) (b : Block)
    (hb : b ∈ parse_markdown s) : b.text ≠ [] :=
  (parse_markdown_goodText s b hb).1

/-- C10 witness: the block parsed from `"a"` has non-empty text. -/
theorem parse_blocks_nonempty_text_app : (⟨BType.p, ['a']⟩ : Block).text ≠ [] :=
  parse_blocks_nonempty_text "a" ⟨BType.p, ['a']⟩ (by decide)

/-! ## Round-trip machinery -/

theorem normCRLF_cons2 (c d : Char) (rest : List Char) :
    normCRLF (c :: d :: rest) =
      if c = '\r' ∧ d = '\n' then '\n' :: normCRLF rest
      else c :: normCRLF (d :: rest) := rfl

theorem normCRLF_append_no_cr (xs : List Char) (hx : ∀ c ∈ xs, c ≠ '\r')
    (cs : List Char) : normCRLF (xs ++ cs) = xs ++ normCRLF cs := by
  induction xs with
  | nil => rfl
  | cons x t ih =>
    have hx1 : x ≠ '\r' := hx x (by simp)
    cases htc : t ++ cs with
    | nil =>
      obtain ⟨ht, hc⟩ := List.append_eq_nil.mp htc
      subst ht
      subst hc
      rfl
    | cons y u =>
      rw [List.cons_append, htc, normCRLF_cons2,
        if_neg (by rintro ⟨h1, h2⟩; exact hx1 h1)]
      rw [← htc, ih (fun c hc => hx c (by simp [hc]))]
      rfl

theorem normCRLF_lf_cons (rest : List Char) :
    normCRLF ('\n' :: rest) = '\n' :: normCRLF rest := by
  cases rest with
  | nil => rfl
  | cons c t =>
    rw [normCRLF_cons2, if_neg (by rintro ⟨h1, h2⟩; exact absurd h1 (by decide))]

theorem splitBoundaries_append_lf (xs : List Char) (hx : noBoundary xs)
    (cs : List Char) :
    splitBoundaries (xs ++ '\n' :: cs) = xs :: splitBoundaries cs := by
  induction xs with
  | nil =>
    rw [List.nil_append, splitBoundaries_cons, if_pos (by decide)]
  | cons x t ih =>
    rw [List.cons_append, splitBoundaries_cons,
      if_neg (by simp [hx x (by simp)])]
    rw [ih (fun c hc => hx c (by simp [hc]))]
    rfl

theorem pySplitlines_append_lf (xs : List Char) (hx : noBoundary xs)
    (cs : List Char) :
    pySplitlines (xs ++ '\n' :: cs) = xs :: pySplitlines cs := by
  unfold pySplitlines
  rw [normCRLF_append_no_cr xs (by
      intro c hc hr
      have hb := hx c hc
      rw [hr] at hb
      exact absurd hb (by decide)) ('\n' :: cs),
    normCRLF_lf_cons, splitBoundaries_append_lf xs hx]

theorem blockLine_noBoundary (b : Block) (h : noBoundary b.text) :
    noBoundary (blockLine b) := by
  obtain ⟨ty, tx⟩ := b
  cases ty with
  | h1 =>
    intro c hc
    have hc2 : c ∈ '#' :: ' ' :: tx := hc
    rw [List.mem_cons, List.mem_cons] at hc2
    rcases hc2 with rfl | rfl | hc2
    · decide
    · decide
    · exact h c hc2
  | h2 =>
    intro c hc
    have hc2 : c ∈ '#' :: '#' :: ' ' :: tx := hc
    rw [List.mem_cons, List.mem_cons, List.mem_cons] at hc2
    rcases hc2 with rfl | rfl | rfl | hc2
    · decide
    · decide
    · decide
    · exact h c hc2
  | p => exact h

theorem pyStrip_blockLine (b : Block) (hg : goodText b.text) :
    pyStrip (blockLine b) = blockLine b := by
  obtain ⟨ty, tx⟩ := b
  have htx : tx ≠ [] := hg.1
  cases ty with
  | h1 =>
    show pyStrip ('#' :: ' ' :: tx) = '#' :: ' ' :: tx
    apply pyStrip_eq_self
    constructor
    · intro c hc
      obtain rfl : '#' = c := Option.some.inj hc
      decide
    · intro c hc
      rw [show ('#' :: ' ' :: tx : List Char) = ['#', ' '] ++ tx from rfl,
        List.getLast?_append_of_ne_nil ['#', ' '] htx] at hc
      exact hg.2.1.2 c hc
  | h2 =>
    show pyStrip ('#' :: '#' :: ' ' :: tx) = '#' :: '#' :: ' ' :: tx
    apply pyStrip_eq_self
    constructor
    · intro c hc
      obtain rfl : '#' = c := Option.some.inj hc
      decide
    · intro c hc
      rw [show ('#' :: '#' :: ' ' :: tx : List Char) = ['#', '#', ' '] ++ tx from rfl,
        List.getLast?_append_of_ne_nil ['#', '#', ' '] htx] at hc
      exact hg.2.1.2 c hc
  | p =>
    show pyStrip tx = tx
    exact pyStrip_eq_self tx hg.2.1

theorem takeWhile_no_lf (t : List Char) (hnb : noBoundary t) :
    t.takeWhile (fun d => d ≠ '\n') = t := by
  rw [List.takeWhile_eq_self_iff]
  intro x hx
  simp only [decide_eq_true_eq]
  intro hxe
  have hb := hnb x hx
  rw [hxe] at hb
  exact absurd hb (by decide)

theorem reHeadingRest_space (n : Nat) (t : List Char) (hg : goodText t) :
    reHeadingRest n (' ' :: t) = some (n, t) := by
  rw [show reHeadingRest n (' ' :: t) = some (n,
      ((' ' :: t).dropWhile isPySpace).takeWhile (fun d => d ≠ '\n')) from rfl]
  rw [show (' ' :: t).dropWhile isPySpace = t.dropWhile isPySpace from rfl]
  rw [dropWhile_eq_self_of_head _ _ hg.2.1.1, takeWhile_no_lf t hg.2.2]

theorem reHeadingMatch_h1 (t : List Char) (hg : goodText t) :
    reHeadingMatch ('#' :: ' ' :: t) = some (1, t) := by
  rw [show reHeadingMatch ('#' :: ' ' :: t) = reHeadingRest 1 (' ' :: t) from rfl]
  exact reHeadingRest_space 1 t hg

theorem reHeadingMatch_h2 (t : List Char) (hg : goodText t) :
    reHeadingMatch ('#' :: '#' :: ' ' :: t) = some (2, t) := by
  rw [show reHeadingMatch ('#' :: '#' :: ' ' :: t) = reHeadingRest 2 (' ' :: t) from rfl]
  exact reHeadingRest_space 2 t hg

theorem parseMdLoop_blank_cons (ls : List (List Char)) :
    parseMdLoop [] ([] :: ls) = parseMdLoop [] ls := by
  rw [parseMdLoop_cons, if_pos pyStrip_nil]
  rfl

theorem parseMdLoop_block_cons (b : Block) (hg : goodText b.text)
    (hp : b.type = BType.p → reHeadingMatch b.text = none)
    (ls : List (List Char)) :
    parseMdLoop [] (blockLine b :: [] :: ls) = b :: parseMdLoop [] ls := by
  obtain ⟨ty, tx⟩ := b
  have hs : pyStrip (blockLine ⟨ty, tx⟩) = blockLine ⟨ty, tx⟩ :=
    pyStrip_blockLine _ hg
  cases ty with
  | h1 =>
    rw [parseMdLoop_cons, hs, if_neg (by simp [blockLine])]
    rw [show blockLine (⟨BType.h1, tx⟩ : Block) = '#' :: ' ' :: tx from rfl,
      reHeadingMatch_h1 tx hg]
    show flush_paragraph [] ++
      (⟨BType.h1, pyStrip tx⟩ : Block) :: parseMdLoop [] ([] :: ls) = _
    rw [pyStrip_eq_self tx hg.2.1, parseMdLoop_blank_cons]
    rfl
  | h2 =>
    rw [parseMdLoop_cons, hs, if_neg (by simp [blockLine])]
    rw [show blockLine (⟨BType.h2, tx⟩ : Block) = '#' :: '#' :: ' ' :: tx from rfl,
      reHeadingMatch_h2 tx hg]
    show flush_paragraph [] ++
      (⟨BType.h2, pyStrip tx⟩ : Block) :: parseMdLoop [] ([] :: ls) = _
    rw [pyStrip_eq_self tx hg.2.1, parseMdLoop_blank_cons]
    rfl
  | p =>
    rw [parseMdLoop_cons, hs,
      show blockLine (⟨BType.p, tx⟩ : Block) = tx from rfl, if_neg hg.1, hp rfl]
    show parseMdLoop [tx] ([] :: ls) = _
    rw [parseMdLoop_cons, if_pos pyStrip_nil]
    show flush_paragraph [tx] ++ parseMdLoop [] ls = _
    rw [show flush_paragraph [tx] = [⟨BType.p, tx⟩] from by
      unfold flush_paragraph
      rw [if_neg (by simp)]
      rfl]
    rfl

theorem parseMdLoop_block_single (b : Block) (hg : goodText b.text)
    (hp : b.type = BType.p → reHeadingMatch b.text = none) :
    parseMdLoop [] [blockLine b] = [b] := by
  obtain ⟨ty, tx⟩ := b
  have hs : pyStrip (blockLine ⟨ty, tx⟩) = blockLine ⟨ty, tx⟩ :=
    pyStrip_blockLine _ hg
  cases ty with
  | h1 =>
    rw [parseMdLoop_cons, hs, if_neg (by simp [blockLine])]
    rw [show blockLine (⟨BType.h1, tx⟩ : Block) = '#' :: ' ' :: tx from rfl,
      reHeadingMatch_h1 tx hg]
    show flush_paragraph [] ++
      (⟨BType.h1, pyStrip tx⟩ : Block) :: parseMdLoop [] [] = _
    rw [pyStrip_eq_self tx hg.2.1]
    rfl
  | h2 =>
    rw [parseMdLoop_cons, hs, if_neg (by simp [blockLine])]
    rw [show blockLine (⟨BType.h2, tx⟩ : Block) = '#' :: '#' :: ' ' :: tx from rfl,
      reHeadingMatch_h2 tx hg]
    show flush_paragraph [] ++
      (⟨BType.h2, pyStrip tx⟩ : Block) :: parseMdLoop [] [] = _
    rw [pyStrip_eq_self tx hg.2.1]
    rfl
  | p =>
    rw [parseMdLoop_cons, hs,
      show blockLine (⟨BType.p, tx⟩ : Block) = tx from rfl, if_neg hg.1, hp rfl]
    show parseMdLoop [tx] [] = _
    show flush_paragraph [tx] = _
    unfold flush_paragraph
    rw [if_neg (by simp)]
    rfl

theorem btm_single (b : Block) :
    blocks_to_markdown [b] = blockLine b ++ '\n' :: [] := by
  show pyJoin ['\n'] [blockLine b, []] = _
  rw [pyJoin_cons2]
  rfl

theorem btm_cons2 (b b2 : Block) (bs : List Block) :
    blocks_to_markdown (b :: b2 :: bs) =
      blockLine b ++ '\n' :: '\n' :: blocks_to_markdown (b2 :: bs) := by
  show pyJoin ['\n'] (blockLine b :: [] :: serPieces (b2 :: bs)) = _
  rw [pyJoin_cons2,
    show serPieces (b2 :: bs) = blockLine b2 :: [] :: serPieces bs from rfl,
    pyJoin_cons2]
  rfl

theorem reparse_serialized (bs : List Block)
    (h : ∀ b ∈ bs, goodText b.text ∧
      (b.type = BType.p → reHeadingMatch b.text = none)) :
    parseChars (blocks_to_markdown bs) = bs := by
  induction bs with
  | nil => rfl
  | cons b rest ih =>
    have hb := h b (by simp)
    cases rest with
    | nil =>
      show parseMdLoop [] (pySplitlines (blocks_to_markdown [b])) = [b]
      rw [btm_single,
        pySplitlines_append_lf (blockLine b) (blockLine_noBoundary b hb.1.2.2) []]
      show parseMdLoop [] [blockLine b] = [b]
      exact parseMdLoop_block_single b hb.1 hb.2
    | cons b2 rest2 =>
      show parseMdLoop [] (pySplitlines (blocks_to_markdown (b :: b2 :: rest2))) = _
      rw [btm_cons2,
        pySplitlines_append_lf (blockLine b) (blockLine_noBoundary b hb.1.2.2)]
      rw [show ('\n' :: blocks_to_markdown (b2 :: rest2)) =
        [] ++ '\n' :: blocks_to_markdown (b2 :: rest2) from rfl]
      rw [pySplitlines_append_lf [] (by intro c hc; simp at hc)]
      rw [parseMdLoop_block_cons b hb.1 hb.2]
      have ih2 := ih (fun x hx => h x (by simp [hx]))
      rw [show parseMdLoop [] (pySplitlines (blocks_to_markdown (b2 :: rest2))) =
        parseChars (blocks_to_markdown (b2 :: rest2)) from rfl, ih2]

/-- C3 (amended): parse, serialize, re-parse is the identity on the first
parse for every input whose parse contains no paragraph block whose text
itself matches the heading pattern; without that proviso the claim fails,
see `roundtrip_fails_on_hash_line`. -/
theorem roundtrip_after_serialize (s : String)
    (hp : ∀ b ∈ parse_markdown s, b.type = BType.p →
      reHeadingMatch b.text = none) :
    parseChars (blocks_to_markdown (parse_markdown s)) = parse_markdown s := by
  apply reparse_serialized
  intro b hb
  exact ⟨parse_markdown_goodText s b hb, hp b hb⟩

/-- C3 witness: a heading plus a paragraph round-trips unchanged. -/
theorem roundtrip_after_serialize_app :
    parseChars (blocks_to_markdown (parse_markdown "# T\n\nhello there")) =
      parse_markdown "# T\n\nhello there" :=
  roundtrip_after_serialize "# T\n\nhello there" (by decide)

end FrEs2Col
